import Mathlib

/-!
Shallow embedding of the parallel restore engine of gpbackup
(src/restore/parallel.go) and proofs of the spec claims about it.

The embedding models:
- `BatchPostdataStatements` (a pure partitioning function) directly;
- the serial worker loop `executeStatementsForConn` as a recursive
  function over the statement list, with the database execution result
  supplied by an oracle `execRes`, the continue-on-error flag as a
  boolean parameter, and the externally visible stop conditions
  (the global `wasTerminated` flag, or a fatal error set by another
  worker) as an observation schedule `obs : Nat -> Bool` consulted at
  the top-of-loop check, exactly where the Go code reads them;
- the writer loop `writeStatements` likewise, with the output file
  modelled as a partial map from byte position to byte and `WriteAt`
  as a positional splice.
-/

namespace GpRestore

/-- Record type `toc.StatementWithType` as used by parallel.go:
the statement text plus the metadata consulted by batching and error
reporting. -/
structure StatementWithType where
  schema : String
  name : String
  statement : String
  objectType : String
  referenceObject : String
deriving Repr, DecidableEq

/-- Record type `toc.StatementWithOffset`: statement text plus the byte
offset at which the writer must place it. The Go field is an int64; a
valid offset handed to WriteAt is nonnegative, so it is modelled as Nat. -/
structure StatementWithOffset where
  schema : String
  name : String
  statement : String
  offset : Nat
deriving Repr, DecidableEq

/-- Go `strings.Contains s pat`: `pat` occurs as a contiguous substring
of `s`. -/
def strContains (s pat : String) : Bool :=
  decide (pat.data <:+: s.data)

/-- The `toFirstBatch` condition computed per statement in the loop of
`BatchPostdataStatements`: `tableIndexPresent` is membership of the
reference object in `indexMap`. -/
def toFirstBatch (skipIndex : Bool) (indexMap : List String)
    (s : StatementWithType) : Bool :=
  if skipIndex then s.objectType == "INDEX" || s.objectType == "INDEX METADATA"
  else s.objectType == "INDEX" && !(indexMap.contains s.referenceObject)

/-- The loop body of `BatchPostdataStatements`, recursing over the
remaining statements and threading the `indexMap` set of reference
objects already assigned to the first batch. Appending each statement
to the end of its batch in input order is rendered as consing it onto
the result of processing the rest. -/
def batchGo (skipIndex : Bool) :
    List StatementWithType → List String →
    List StatementWithType × List StatementWithType × List StatementWithType
  | [], _ => ([], [], [])
  | s :: rest, indexMap =>
    if toFirstBatch skipIndex indexMap s then
      let r := batchGo skipIndex rest (s.referenceObject :: indexMap)
      (s :: r.1, r.2.1, r.2.2)
    else if strContains s.objectType " METADATA" then
      let r := batchGo skipIndex rest indexMap
      (r.1, r.2.1, s :: r.2.2)
    else
      let r := batchGo skipIndex rest indexMap
      (r.1, s :: r.2.1, r.2.2)

/-- `BatchPostdataStatements` from parallel.go: partition the postdata
statements into three batches, starting from an empty `indexMap`. -/
def BatchPostdataStatements (statements : List StatementWithType) (skipIndex : Bool) :
    List StatementWithType × List StatementWithType × List StatementWithType :=
  batchGo skipIndex statements []

example :
    BatchPostdataStatements
      [⟨"s", "i1", "CREATE INDEX", "INDEX", "t1"⟩,
       ⟨"s", "i2", "CREATE INDEX", "INDEX", "t1"⟩,
       ⟨"s", "c1", "COMMENT", "COMMENT METADATA", "t1"⟩] false =
    ([⟨"s", "i1", "CREATE INDEX", "INDEX", "t1"⟩],
     [⟨"s", "i2", "CREATE INDEX", "INDEX", "t1"⟩],
     [⟨"s", "c1", "COMMENT", "COMMENT METADATA", "t1"⟩]) := by
  decide

/-- Every batch produced by the loop is a sublist of the input (members
keep their relative input order), and the three batches together are a
permutation of the input, for every starting `indexMap`. -/
theorem batchGo_sublist_perm (skipIndex : Bool) (stmts : List StatementWithType) :
    ∀ m, (batchGo skipIndex stmts m).1.Sublist stmts ∧
      (batchGo skipIndex stmts m).2.1.Sublist stmts ∧
      (batchGo skipIndex stmts m).2.2.Sublist stmts ∧
      List.Perm ((batchGo skipIndex stmts m).1 ++ (batchGo skipIndex stmts m).2.1
        ++ (batchGo skipIndex stmts m).2.2) stmts := by
  induction stmts with
  | nil => intro m; simp [batchGo]
  | cons s rest ih =>
    intro m
    by_cases hf : toFirstBatch skipIndex m s = true
    · obtain ⟨h1, h2, h3, hp⟩ := ih (s.referenceObject :: m)
      simp only [batchGo, if_pos hf]
      exact ⟨h1.cons₂ s, h2.cons s, h3.cons s, by simpa using hp.cons s⟩
    · by_cases hm : strContains s.objectType " METADATA" = true
      · obtain ⟨h1, h2, h3, hp⟩ := ih m
        simp only [batchGo, if_neg hf, if_pos hm]
        refine ⟨h1.cons s, h2.cons s, h3.cons₂ s, ?_⟩
        exact List.perm_middle.trans (hp.cons s)
      · obtain ⟨h1, h2, h3, hp⟩ := ih m
        simp only [batchGo, if_neg hf, if_neg hm]
        refine ⟨h1.cons s, h2.cons₂ s, h3.cons s, ?_⟩
        exact (List.perm_middle.append_right _).trans (hp.cons s)

/-- C1: for every input sequence and every value of skipIndexBatch,
`BatchPostdataStatements` returns three sequences whose lengths sum to
the input length, which together are a permutation of the input (every
input record appears in exactly one output, with multiplicity), and
each of which is a sublist of the input (relative order preserved). -/
theorem C1_partition_completeness_and_order
    (stmts : List StatementWithType) (skipIndex : Bool) :
    (BatchPostdataStatements stmts skipIndex).1.length
      + (BatchPostdataStatements stmts skipIndex).2.1.length
      + (BatchPostdataStatements stmts skipIndex).2.2.length = stmts.length ∧
    List.Perm ((BatchPostdataStatements stmts skipIndex).1
      ++ (BatchPostdataStatements stmts skipIndex).2.1
      ++ (BatchPostdataStatements stmts skipIndex).2.2) stmts ∧
    (BatchPostdataStatements stmts skipIndex).1.Sublist stmts ∧
    (BatchPostdataStatements stmts skipIndex).2.1.Sublist stmts ∧
    (BatchPostdataStatements stmts skipIndex).2.2.Sublist stmts := by
  obtain ⟨h1, h2, h3, hp⟩ := batchGo_sublist_perm skipIndex stmts []
  refine ⟨?_, hp, h1, h2, h3⟩
  have := hp.length_eq
  simpa [List.length_append, Nat.add_assoc] using this

/-- An INDEX record belonging to reference object `r`. -/
def isIndexFor (r : String) (s : StatementWithType) : Bool :=
  s.objectType == "INDEX" && s.referenceObject == r

/-- A record routed to the first batch when skipIndexBatch is true:
objectType is exactly INDEX or exactly INDEX METADATA. -/
def isIndexOrIndexMeta (s : StatementWithType) : Bool :=
  s.objectType == "INDEX" || s.objectType == "INDEX METADATA"

/-- A record whose objectType contains the substring METADATA preceded
by a space, as tested by strings.Contains in the loop. -/
def isMetaRecord (s : StatementWithType) : Bool :=
  strContains s.objectType " METADATA"

/-- Membership in the indexMap is unchanged by consing a different key. -/
theorem contains_cons_ne (m : List String) {a r : String} (h : ¬ a = r) :
    (a :: m).contains r = m.contains r := by
  have hb : (r == a) = false := by
    cases h3 : r == a
    · rfl
    · exact absurd (eq_of_beq h3).symm h
  simp only [List.contains_cons, hb, Bool.false_or]

/-- Membership in the indexMap after consing the key itself. -/
theorem contains_cons_self (m : List String) {a r : String} (h : a = r) :
    (a :: m).contains r = true := by
  subst h
  simp [List.contains_cons]

/-- Unfolding of the INDEX-for-object predicate into two equations. -/
theorem isIndexFor_iff (r : String) (s : StatementWithType) :
    isIndexFor r s = true ↔ s.objectType = "INDEX" ∧ s.referenceObject = r := by
  simp [isIndexFor]

/-- With skipIndexBatch false: relative to a running indexMap `m`, the
INDEX records of a reference object `r` split so that, if `r` is already
in `m`, none of them reaches the first batch and all of them land in the
second; if `r` is not yet in `m`, exactly the earliest reaches the first
batch and the rest land in the second. -/
theorem batchGo_indexFor_split (r : String) (stmts : List StatementWithType) :
    ∀ m,
      (m.contains r = true →
        (batchGo false stmts m).1.filter (isIndexFor r) = [] ∧
        (batchGo false stmts m).2.1.filter (isIndexFor r)
          = stmts.filter (isIndexFor r)) ∧
      (m.contains r = false →
        (batchGo false stmts m).1.filter (isIndexFor r)
          = (stmts.filter (isIndexFor r)).take 1 ∧
        (batchGo false stmts m).2.1.filter (isIndexFor r)
          = (stmts.filter (isIndexFor r)).drop 1) := by
  induction stmts with
  | nil => intro m; simp [batchGo]
  | cons s rest ih =>
    intro m
    by_cases hf : toFirstBatch false m s = true
    · have hcond : (s.objectType == "INDEX" && !(m.contains s.referenceObject))
          = true := by simpa [toFirstBatch] using hf
      rw [Bool.and_eq_true] at hcond
      have hobj : s.objectType = "INDEX" := eq_of_beq hcond.1
      have hnm : m.contains s.referenceObject = false := by
        have := hcond.2; simpa using this
      simp only [batchGo, if_pos hf]
      by_cases hr : s.referenceObject = r
      · have hs : isIndexFor r s = true := (isIndexFor_iff r s).mpr ⟨hobj, hr⟩
        constructor
        · intro hmem
          rw [hr, hmem] at hnm
          cases hnm
        · intro _
          obtain ⟨hipf, hips⟩ :=
            (ih (s.referenceObject :: m)).1 (contains_cons_self m hr)
          exact ⟨by simp [List.filter_cons, hs, hipf],
            by simp [List.filter_cons, hs, hips]⟩
      · have hs : isIndexFor r s = false := by
          cases h3 : isIndexFor r s
          · rfl
          · exact absurd ((isIndexFor_iff r s).mp h3).2 hr
        have hcont : (s.referenceObject :: m).contains r = m.contains r :=
          contains_cons_ne m hr
        constructor
        · intro hmem
          obtain ⟨hipf, hips⟩ := (ih (s.referenceObject :: m)).1
            (by rw [hcont]; exact hmem)
          exact ⟨by simp [List.filter_cons, hs, hipf],
            by simp [List.filter_cons, hs, hips]⟩
        · intro hmem
          obtain ⟨hipf, hips⟩ := (ih (s.referenceObject :: m)).2
            (by rw [hcont]; exact hmem)
          exact ⟨by simp [List.filter_cons, hs, hipf],
            by simp [List.filter_cons, hs, hips]⟩
    · have hcond : ¬ ((s.objectType == "INDEX")
          && !(m.contains s.referenceObject)) = true := by
        simpa [toFirstBatch] using hf
      simp only [batchGo, if_neg hf]
      by_cases hm2 : strContains s.objectType " METADATA" = true
      · have hs : isIndexFor r s = false := by
          cases h3 : isIndexFor r s
          · rfl
          · rw [((isIndexFor_iff r s).mp h3).1] at hm2
            exact absurd hm2 (by decide)
        simp only [if_pos hm2]
        constructor
        · intro hmem
          obtain ⟨hipf, hips⟩ := (ih m).1 hmem
          exact ⟨by simp [List.filter_cons, hs, hipf],
            by simp [List.filter_cons, hs, hips]⟩
        · intro hmem
          obtain ⟨hipf, hips⟩ := (ih m).2 hmem
          exact ⟨by simp [List.filter_cons, hs, hipf],
            by simp [List.filter_cons, hs, hips]⟩
      · simp only [if_neg hm2]
        by_cases hs : isIndexFor r s = true
        · have hobj : s.objectType = "INDEX" := ((isIndexFor_iff r s).mp hs).1
          have hrr : s.referenceObject = r := ((isIndexFor_iff r s).mp hs).2
          have hmemr : m.contains r = true := by
            rw [← hrr]
            cases h3 : m.contains s.referenceObject
            · exact absurd (by rw [hobj, h3]; decide) hcond
            · rfl
          constructor
          · intro hmem
            obtain ⟨hipf, hips⟩ := (ih m).1 hmem
            exact ⟨by simp [List.filter_cons, hs, hipf],
              by simp [List.filter_cons, hs, hips]⟩
          · intro hmem
            rw [hmemr] at hmem
            cases hmem
        · have hs2 : isIndexFor r s = false := by
            cases h3 : isIndexFor r s
            · rfl
            · exact absurd h3 hs
          constructor
          · intro hmem
            obtain ⟨hipf, hips⟩ := (ih m).1 hmem
            exact ⟨by simp [List.filter_cons, hs2, hipf],
              by simp [List.filter_cons, hs2, hips]⟩
          · intro hmem
            obtain ⟨hipf, hips⟩ := (ih m).2 hmem
            exact ⟨by simp [List.filter_cons, hs2, hipf],
              by simp [List.filter_cons, hs2, hips]⟩

/-- C2: with skipIndexBatch false, for every reference object with at
least one INDEX record, the earliest such record (take 1 of the filtered
input) is exactly what appears in the first batch, and all its other
INDEX records (drop 1 of the filtered input) are exactly what appears in
the second batch. -/
theorem C2_index_first_invariant (stmts : List StatementWithType) (r : String)
    (hne : stmts.filter (isIndexFor r) ≠ []) :
    (BatchPostdataStatements stmts false).1.filter (isIndexFor r)
      = (stmts.filter (isIndexFor r)).take 1 ∧
    (BatchPostdataStatements stmts false).2.1.filter (isIndexFor r)
      = (stmts.filter (isIndexFor r)).drop 1 :=
  (batchGo_indexFor_split r stmts []).2 rfl

/-- Witness for C2 on a concrete input: two INDEX records for table t1
followed by a comment; the first batch keeps exactly the earliest and
the second batch the other. -/
theorem C2_index_first_invariant_witness :
    (BatchPostdataStatements
      [⟨"s", "i1", "CREATE INDEX i1", "INDEX", "t1"⟩,
       ⟨"s", "i2", "CREATE INDEX i2", "INDEX", "t1"⟩,
       ⟨"s", "c1", "COMMENT ON", "COMMENT METADATA", "t1"⟩] false).1.filter
        (isIndexFor "t1")
      = ([⟨"s", "i1", "CREATE INDEX i1", "INDEX", "t1"⟩,
          ⟨"s", "i2", "CREATE INDEX i2", "INDEX", "t1"⟩,
          ⟨"s", "c1", "COMMENT ON", "COMMENT METADATA", "t1"⟩].filter
            (isIndexFor "t1")).take 1 ∧
    (BatchPostdataStatements
      [⟨"s", "i1", "CREATE INDEX i1", "INDEX", "t1"⟩,
       ⟨"s", "i2", "CREATE INDEX i2", "INDEX", "t1"⟩,
       ⟨"s", "c1", "COMMENT ON", "COMMENT METADATA", "t1"⟩] false).2.1.filter
        (isIndexFor "t1")
      = ([⟨"s", "i1", "CREATE INDEX i1", "INDEX", "t1"⟩,
          ⟨"s", "i2", "CREATE INDEX i2", "INDEX", "t1"⟩,
          ⟨"s", "c1", "COMMENT ON", "COMMENT METADATA", "t1"⟩].filter
            (isIndexFor "t1")).drop 1 :=
  C2_index_first_invariant
    [⟨"s", "i1", "CREATE INDEX i1", "INDEX", "t1"⟩,
     ⟨"s", "i2", "CREATE INDEX i2", "INDEX", "t1"⟩,
     ⟨"s", "c1", "COMMENT ON", "COMMENT METADATA", "t1"⟩] "t1" (by decide)

/-- With skipIndexBatch true, the first batch is exactly the subsequence
of INDEX and INDEX METADATA records, for every starting indexMap, and
neither the second nor the third batch holds any such record. -/
theorem batchGo_skipIndex_first (stmts : List StatementWithType) :
    ∀ m, (batchGo true stmts m).1 = stmts.filter isIndexOrIndexMeta ∧
      (batchGo true stmts m).2.1.filter isIndexOrIndexMeta = [] ∧
      (batchGo true stmts m).2.2.filter isIndexOrIndexMeta = [] := by
  induction stmts with
  | nil => intro m; simp [batchGo]
  | cons s rest ih =>
    intro m
    have hfi : toFirstBatch true m s = isIndexOrIndexMeta s := by
      simp [toFirstBatch, isIndexOrIndexMeta]
    by_cases hs : isIndexOrIndexMeta s = true
    · have hf : toFirstBatch true m s = true := by rw [hfi]; exact hs
      obtain ⟨h1, h2, h3⟩ := ih (s.referenceObject :: m)
      simp only [batchGo, if_pos hf]
      exact ⟨by simp [List.filter_cons, hs, h1], h2, h3⟩
    · have hf : ¬ toFirstBatch true m s = true := by rw [hfi]; exact hs
      obtain ⟨h1, h2, h3⟩ := ih m
      simp only [batchGo, if_neg hf]
      have hs2 : isIndexOrIndexMeta s = false := by
        cases h3 : isIndexOrIndexMeta s
        · rfl
        · exact absurd h3 hs
      by_cases hm2 : strContains s.objectType " METADATA" = true
      · simp only [if_pos hm2]
        exact ⟨by simp [List.filter_cons, hs2, h1],
          h2, by simp [List.filter_cons, hs2, h3]⟩
      · simp only [if_neg hm2]
        exact ⟨by simp [List.filter_cons, hs2, h1],
          by simp [List.filter_cons, hs2, h2], h3⟩

/-- C6: with skipIndexBatch true, every record whose objectType is
exactly INDEX or exactly INDEX METADATA is placed in the first batch
(the first batch is precisely the filtered input, so this holds
regardless of earlier records for the same reference object), and no
such record reaches the second or third batch. -/
theorem C6_skipIndexBatch_semantics (stmts : List StatementWithType) :
    (BatchPostdataStatements stmts true).1 = stmts.filter isIndexOrIndexMeta ∧
    (BatchPostdataStatements stmts true).2.1.filter isIndexOrIndexMeta = [] ∧
    (BatchPostdataStatements stmts true).2.2.filter isIndexOrIndexMeta = [] :=
  batchGo_skipIndex_first stmts []

/-- The second batch never receives a record whose objectType contains
the substring METADATA preceded by a space, and every such record of the
input is accounted for, with multiplicity, by the first and third
batches; this holds for every skipIndexBatch value and every starting
indexMap. -/
theorem batchGo_metadata_isolation (skipIndex : Bool)
    (stmts : List StatementWithType) :
    ∀ m, (batchGo skipIndex stmts m).2.1.filter isMetaRecord = [] ∧
      stmts.countP isMetaRecord
        = (batchGo skipIndex stmts m).1.countP isMetaRecord
          + (batchGo skipIndex stmts m).2.2.countP isMetaRecord := by
  induction stmts with
  | nil => intro m; simp [batchGo]
  | cons s rest ih =>
    intro m
    by_cases hf : toFirstBatch skipIndex m s = true
    · obtain ⟨h1, h2⟩ := ih (s.referenceObject :: m)
      simp only [batchGo, if_pos hf]
      refine ⟨h1, ?_⟩
      by_cases hs : isMetaRecord s = true
      · simp [List.countP_cons, hs, h2, Nat.add_assoc, Nat.add_comm]
        omega
      · have hs2 : isMetaRecord s = false := by
          cases h3 : isMetaRecord s
          · rfl
          · exact absurd h3 hs
        simp [List.countP_cons, hs2, h2]
    · simp only [batchGo, if_neg hf]
      by_cases hm2 : strContains s.objectType " METADATA" = true
      · obtain ⟨h1, h2⟩ := ih m
        have hs : isMetaRecord s = true := hm2
        simp only [if_pos hm2]
        refine ⟨h1, ?_⟩
        simp [List.countP_cons, hs, h2]
        omega
      · obtain ⟨h1, h2⟩ := ih m
        have hs2 : isMetaRecord s = false := by
          cases h3 : isMetaRecord s
          · rfl
          · exact absurd h3 hm2
        simp only [if_neg hm2]
        refine ⟨by simp [List.filter_cons, hs2, h1], ?_⟩
        simp [List.countP_cons, hs2, h2]

/-- C7: every record whose objectType contains the substring METADATA
preceded by a space and that is not placed in the first batch is placed
in the third batch, never in the second: the second batch is free of
such records and the metadata count of the input is carried entirely by
the first and third batches. -/
theorem C7_metadata_isolation (stmts : List StatementWithType)
    (skipIndex : Bool) :
    (BatchPostdataStatements stmts skipIndex).2.1.filter isMetaRecord = [] ∧
    stmts.countP isMetaRecord
      = (BatchPostdataStatements stmts skipIndex).1.countP isMetaRecord
        + (BatchPostdataStatements stmts skipIndex).2.2.countP isMetaRecord :=
  batchGo_metadata_isolation skipIndex stmts []

/-- The key inserted into the failed-objects map `errorTablesMetadata`
on a recovered failure: schema, a dot, and name, with no quoting. -/
def errorKey (schema nm : String) : String := schema ++ "." ++ nm

/-- Observable outcome of one worker draining the statement queue in
executeStatementsForConn: the statements it actually dispatched (in
dispatch order), the number of recovered errors it added, the value of
the fatal-error slot when it stopped, the failed-object keys it
inserted, and the number of progress-bar Increment calls it made. -/
structure WorkerResult where
  attempted : List StatementWithType
  numErrors : Nat
  fatalErr : Option String
  errorTablesMetadata : List String
  progressIncrements : Nat
deriving Repr, DecidableEq

/-- executeStatementsForConn from parallel.go, as seen by one worker.
`execRes` is the connectionPool.Exec oracle (none = success, some err =
failure), `onErrorContinue` the ON_ERROR_CONTINUE flag, and `obs k`
the value of the shared stop condition read at the k-th top-of-loop
check beyond what this worker itself latched (the global wasTerminated
flag, or a fatal error written by another worker); the fatal error this
worker itself wrote is threaded as the last argument, so the Go check
`wasTerminated or fatalErr != nil` is `obs k or fe.isSome`. The
connection index does not affect the modelled behavior and is omitted.
Note that the Go loop body calls progressBar.Increment() after the error
handling of every dispatched statement, including one whose error is
latched as fatal. -/
def executeStatementsForConn (execRes : StatementWithType → Option String)
    (onErrorContinue : Bool) (obs : Nat → Bool) :
    List StatementWithType → Nat → Option String → WorkerResult
  | [], _, fe =>
    { attempted := [], numErrors := 0, fatalErr := fe,
      errorTablesMetadata := [], progressIncrements := 0 }
  | s :: rest, k, fe =>
    if obs k || fe.isSome then
      { attempted := [], numErrors := 0, fatalErr := fe,
        errorTablesMetadata := [], progressIncrements := 0 }
    else
      match execRes s with
      | none =>
        let r := executeStatementsForConn execRes onErrorContinue obs rest (k + 1) fe
        { attempted := s :: r.attempted, numErrors := r.numErrors,
          fatalErr := r.fatalErr, errorTablesMetadata := r.errorTablesMetadata,
          progressIncrements := r.progressIncrements + 1 }
      | some e =>
        if onErrorContinue then
          let r := executeStatementsForConn execRes onErrorContinue obs rest (k + 1) fe
          { attempted := s :: r.attempted, numErrors := r.numErrors + 1,
            fatalErr := r.fatalErr,
            errorTablesMetadata := errorKey s.schema s.name :: r.errorTablesMetadata,
            progressIncrements := r.progressIncrements + 1 }
        else
          let r := executeStatementsForConn execRes onErrorContinue obs rest (k + 1) (some e)
          { attempted := s :: r.attempted, numErrors := r.numErrors,
            fatalErr := r.fatalErr, errorTablesMetadata := r.errorTablesMetadata,
            progressIncrements := r.progressIncrements + 1 }

/-- End of an ExecuteStatements invocation: either gplog.Fatal with the
latched fatal error (the call does not return), or a normal return of
the recovered error count. -/
inductive RunOutcome where
  | fatal : String → RunOutcome
  | returned : Nat → RunOutcome
deriving Repr, DecidableEq

/-- ExecuteStatements from parallel.go on its serial path
(executeInParallel = false): the queue holds all statements up front,
one worker drains it on a fixed validated connection starting from a nil
fatal error and a zero error count, then a latched fatal error
terminates the run and otherwise the error count is returned. -/
def ExecuteStatementsSerial (execRes : StatementWithType → Option String)
    (onErrorContinue : Bool) (obs : Nat → Bool)
    (stmts : List StatementWithType) : RunOutcome :=
  match (executeStatementsForConn execRes onErrorContinue obs stmts 0 none).fatalErr with
  | some e => RunOutcome.fatal e
  | none =>
    RunOutcome.returned
      (executeStatementsForConn execRes onErrorContinue obs stmts 0 none).numErrors

/-- Once the fatal-error slot is occupied, the worker consumes nothing:
it returns at the first check with the queue untouched. -/
theorem executeStatementsForConn_stop
    (execRes : StatementWithType → Option String) (onErrorContinue : Bool)
    (obs : Nat → Bool) (stmts : List StatementWithType) (k : Nat)
    (fe : Option String) (hfe : fe.isSome = true) :
    executeStatementsForConn execRes onErrorContinue obs stmts k fe
      = { attempted := [], numErrors := 0, fatalErr := fe,
          errorTablesMetadata := [], progressIncrements := 0 } := by
  cases stmts with
  | nil => rfl
  | cons s rest => simp [executeStatementsForConn, hfe]

/-- With continue-on-error and no stop observation, the worker attempts
every statement in input order, never latches a fatal error, and its
recovered error count is the number of failing statements. -/
theorem executeStatementsForConn_continue_all
    (execRes : StatementWithType → Option String)
    (stmts : List StatementWithType) : ∀ k,
    (executeStatementsForConn execRes true (fun _ => false) stmts k none).attempted
      = stmts ∧
    (executeStatementsForConn execRes true (fun _ => false) stmts k none).fatalErr
      = none ∧
    (executeStatementsForConn execRes true (fun _ => false) stmts k none).numErrors
      = stmts.countP (fun s => (execRes s).isSome) := by
  induction stmts with
  | nil => intro k; simp [executeStatementsForConn]
  | cons s rest ih =>
    intro k
    obtain ⟨h1, h2, h3⟩ := ih (k + 1)
    cases he : execRes s with
    | none =>
      simp [executeStatementsForConn, he, h1, h2, h3, List.countP_cons]
    | some e =>
      simp [executeStatementsForConn, he, h1, h2, h3, List.countP_cons]

/-- With continue-on-error disabled, the worker never advances the
recovered error counter, regardless of the stop schedule. -/
theorem executeStatementsForConn_noContinue_numErrors
    (execRes : StatementWithType → Option String) (obs : Nat → Bool)
    (stmts : List StatementWithType) : ∀ k fe,
    (executeStatementsForConn execRes false obs stmts k fe).numErrors = 0 := by
  induction stmts with
  | nil => intro k fe; rfl
  | cons s rest ih =>
    intro k fe
    by_cases hc : (obs k || fe.isSome) = true
    · simp [executeStatementsForConn, hc]
    · cases he : execRes s with
      | none => simp [executeStatementsForConn, hc, he, ih]
      | some e => simp [executeStatementsForConn, hc, he, ih]

/-- With continue-on-error disabled and no stop observation, the worker
attempts exactly the leading successful statements plus, when one
exists, the first failing statement; it latches a fatal error exactly
when some statement fails. -/
theorem executeStatementsForConn_noContinue_stopsAtFailure
    (execRes : StatementWithType → Option String)
    (stmts : List StatementWithType) : ∀ k,
    (executeStatementsForConn execRes false (fun _ => false) stmts k none).attempted
      = stmts.take ((stmts.takeWhile (fun s => (execRes s).isNone)).length + 1) ∧
    ((executeStatementsForConn execRes false (fun _ => false) stmts k none).fatalErr
        = none ↔ ∀ s ∈ stmts, execRes s = none) := by
  induction stmts with
  | nil => intro k; simp [executeStatementsForConn]
  | cons s rest ih =>
    intro k
    obtain ⟨h1, h2⟩ := ih (k + 1)
    cases he : execRes s with
    | none =>
      constructor
      · simp [executeStatementsForConn, he, h1, List.takeWhile_cons, List.take_succ_cons]
      · simp only [executeStatementsForConn]
        simp [he, h2]
    | some e =>
      have hstop := executeStatementsForConn_stop execRes false
        (fun _ => false) rest (k + 1) (some e) rfl
      constructor
      · simp [executeStatementsForConn, he, hstop, List.takeWhile_cons]
      · simp only [executeStatementsForConn]
        simp [he, hstop]

/-- C3: in serial mode with no termination request, (a) under
continue-on-error every statement is attempted in exact input order and
the invocation returns the number of failing statements; (b) with
continue-on-error disabled the worker attempts exactly the leading
successes plus the first failure and nothing after it, a fully
successful run returns 0, and any failure makes the invocation
terminate fatally instead of returning. -/
theorem C3_serial_order_and_error_policy
    (execRes : StatementWithType → Option String)
    (stmts : List StatementWithType) :
    (executeStatementsForConn execRes true (fun _ => false) stmts 0 none).attempted
      = stmts ∧
    ExecuteStatementsSerial execRes true (fun _ => false) stmts
      = RunOutcome.returned (stmts.countP (fun s => (execRes s).isSome)) ∧
    (executeStatementsForConn execRes false (fun _ => false) stmts 0 none).attempted
      = stmts.take ((stmts.takeWhile (fun s => (execRes s).isNone)).length + 1) ∧
    ((∀ s ∈ stmts, execRes s = none) →
      ExecuteStatementsSerial execRes false (fun _ => false) stmts
        = RunOutcome.returned 0) ∧
    ((∃ s ∈ stmts, execRes s ≠ none) →
      ∃ e, ExecuteStatementsSerial execRes false (fun _ => false) stmts
        = RunOutcome.fatal e) := by
  obtain ⟨ha, hfe, hn⟩ := executeStatementsForConn_continue_all execRes stmts 0
  obtain ⟨ha2, hiff⟩ := executeStatementsForConn_noContinue_stopsAtFailure execRes stmts 0
  refine ⟨ha, ?_, ha2, ?_, ?_⟩
  · unfold ExecuteStatementsSerial
    rw [hfe, hn]
  · intro hall
    unfold ExecuteStatementsSerial
    rw [hiff.mpr hall,
      executeStatementsForConn_noContinue_numErrors execRes (fun _ => false) stmts 0 none]
  · intro ⟨s, hmem, hfail⟩
    unfold ExecuteStatementsSerial
    cases hfa : (executeStatementsForConn execRes false (fun _ => false) stmts 0 none).fatalErr with
    | none => exact absurd (hiff.mp hfa s hmem) hfail
    | some e => exact ⟨e, rfl⟩

/-- Witness for C3 on concrete inputs: with one failing statement of
two, continue-on-error returns a count of 1, and the non-continue
policy ends in a fatal outcome. -/
theorem C3_serial_order_and_error_policy_witness :
    ExecuteStatementsSerial
      (fun s => if s.name == "bad" then some "boom" else none) true
      (fun _ => false)
      [⟨"s", "good", "CREATE TABLE a", "TABLE", ""⟩,
       ⟨"s", "bad", "CREATE TABLE b", "TABLE", ""⟩]
      = RunOutcome.returned 1 ∧
    (∃ e, ExecuteStatementsSerial
      (fun s => if s.name == "bad" then some "boom" else none) false
      (fun _ => false)
      [⟨"s", "good", "CREATE TABLE a", "TABLE", ""⟩,
       ⟨"s", "bad", "CREATE TABLE b", "TABLE", ""⟩]
      = RunOutcome.fatal e) := by
  have h := C3_serial_order_and_error_policy
    (fun s => if s.name == "bad" then some "boom" else none)
    [⟨"s", "good", "CREATE TABLE a", "TABLE", ""⟩,
     ⟨"s", "bad", "CREATE TABLE b", "TABLE", ""⟩]
  refine ⟨?_, h.2.2.2.2 ⟨⟨"s", "bad", "CREATE TABLE b", "TABLE", ""⟩,
    by decide, by decide⟩⟩
  have h2 := h.2.1
  rw [h2]
  decide

/-- Shared state of one WriteStatements invocation as seen by the
writer loop: the output file content (a partial map from byte position
to written byte; none means the position was never written by this
invocation and keeps whatever the file held before), the recovered
error counter, the fatal-error slot, the failed-objects keys, and the
number of progress-bar Increment calls. -/
structure WriteState where
  content : Nat → Option Char
  numErrors : Nat
  fatalErr : Option String
  errorTablesMetadata : List String
  progressIncrements : Nat

/-- os.File WriteAt on the content map: splice `txt` in at byte
position `off`, leaving every position outside the written interval
unchanged. -/
def writeAtFile (content : Nat → Option Char) (off : Nat) (txt : List Char) :
    Nat → Option Char :=
  fun i => if off ≤ i ∧ i < off + txt.length then txt[i - off]? else content i

/-- Result of the WriteAt call: when OpenFile failed the Go code keeps a
nil *os.File and every WriteAt against it returns ErrInvalid; against a
valid handle the per-statement oracle `writeErr` decides. -/
def writeAtResult (valid : Bool) (writeErr : StatementWithOffset → Option String)
    (s : StatementWithOffset) : Option String :=
  if valid then writeErr s else some "invalid argument"

/-- writeStatements from parallel.go, as seen by one worker threading
the shared state: the same top-of-loop stop check, error policy,
failed-object insertion and unconditional Increment as
executeStatementsForConn, with the unit of work being a positional
write. A failing WriteAt is modelled as leaving the content unchanged. -/
def writeStatements (valid : Bool) (writeErr : StatementWithOffset → Option String)
    (onErrorContinue : Bool) (obs : Nat → Bool) :
    List StatementWithOffset → Nat → WriteState → WriteState
  | [], _, st => st
  | s :: rest, k, st =>
    if obs k || st.fatalErr.isSome then st
    else
      match writeAtResult valid writeErr s with
      | none =>
        writeStatements valid writeErr onErrorContinue obs rest (k + 1)
          { st with content := writeAtFile st.content s.offset s.statement.data,
                    progressIncrements := st.progressIncrements + 1 }
      | some e =>
        if onErrorContinue then
          writeStatements valid writeErr onErrorContinue obs rest (k + 1)
            { st with numErrors := st.numErrors + 1,
                      errorTablesMetadata := errorKey s.schema s.name :: st.errorTablesMetadata,
                      progressIncrements := st.progressIncrements + 1 }
        else
          writeStatements valid writeErr onErrorContinue obs rest (k + 1)
            { st with fatalErr := some e,
                      progressIncrements := st.progressIncrements + 1 }

/-- The writer state at the start of an invocation, over the prior file
content `init`. -/
def initWriteState (init : Nat → Option Char) : WriteState :=
  { content := init, numErrors := 0, fatalErr := none,
    errorTablesMetadata := [], progressIncrements := 0 }

/-- End of a WriteStatements invocation: gplog.Fatal already at the
failed OpenFile (before the writer loop runs), gplog.Fatal after the
loop with a latched fatal error, or a normal return of the recovered
error count. -/
inductive WriteOutcome where
  | fatalOpen : String → WriteOutcome
  | fatal : String → WriteOutcome
  | returned : Nat → WriteOutcome
deriving Repr, DecidableEq

/-- WriteStatements from parallel.go on its serial path
(executeInParallel = false): open the output file (`openErr` is the
os.OpenFile result), on an open failure either count one error under
continue-on-error and carry on with the invalid handle or terminate
fatally at once, run the writer loop, then report as in
ExecuteStatements. The pair also returns the final shared state. -/
def WriteStatementsSerial (openErr : Option String)
    (writeErr : StatementWithOffset → Option String) (onErrorContinue : Bool)
    (obs : Nat → Bool) (stmts : List StatementWithOffset)
    (init : Nat → Option Char) : WriteOutcome × WriteState :=
  match openErr with
  | some e =>
    if onErrorContinue then
      let st := writeStatements false writeErr onErrorContinue obs stmts 0
        { initWriteState init with numErrors := 1 }
      match st.fatalErr with
      | some e2 => (WriteOutcome.fatal e2, st)
      | none => (WriteOutcome.returned st.numErrors, st)
    else
      (WriteOutcome.fatalOpen e, initWriteState init)
  | none =>
    let st := writeStatements true writeErr onErrorContinue obs stmts 0
      (initWriteState init)
    match st.fatalErr with
    | some e2 => (WriteOutcome.fatal e2, st)
    | none => (WriteOutcome.returned st.numErrors, st)

/-- With continue-on-error disabled the writer never advances the
recovered error counter either, regardless of the stop schedule. -/
theorem writeStatements_noContinue_numErrors (valid : Bool)
    (writeErr : StatementWithOffset → Option String) (obs : Nat → Bool)
    (stmts : List StatementWithOffset) : ∀ k st,
    (writeStatements valid writeErr false obs stmts k st).numErrors
      = st.numErrors := by
  induction stmts with
  | nil => intro k st; rfl
  | cons s rest ih =>
    intro k st
    by_cases hc : (obs k || st.fatalErr.isSome) = true
    · simp [writeStatements, hc]
    · cases he : writeAtResult valid writeErr s with
      | none => simp [writeStatements, hc, he, ih]
      | some e => simp [writeStatements, hc, he, ih]

/-- With continue-on-error disabled, every statement the worker
attempted except possibly the last one succeeded: nothing is attempted
after a failure. -/
theorem executeStatementsForConn_noContinue_prefixSucceeds
    (execRes : StatementWithType → Option String) (obs : Nat → Bool)
    (stmts : List StatementWithType) : ∀ k,
    ((executeStatementsForConn execRes false obs stmts k none).attempted.dropLast).all
      (fun x => (execRes x).isNone) = true := by
  induction stmts with
  | nil => intro k; rfl
  | cons s rest ih =>
    intro k
    by_cases hc : (obs k || (none : Option String).isSome) = true
    · have hobs : obs k = true := by simpa using hc
      simp [executeStatementsForConn, hobs]
    · have hobs : obs k = false := by simpa using hc
      cases he : execRes s with
      | none =>
        have ihk := ih (k + 1)
        simp only [executeStatementsForConn, if_neg hc, he]
        cases hl : (executeStatementsForConn execRes false obs rest (k + 1) none).attempted with
        | nil => simp [hl]
        | cons y ys =>
          rw [hl] at ihk
          simp only [List.dropLast_cons₂, List.all_cons]
          rw [ihk]
          simp [he]
      | some e =>
        have hstop := executeStatementsForConn_stop execRes false obs rest (k + 1)
          (some e) rfl
        simp [executeStatementsForConn, hobs, he, hstop]

/-- C4: before every unit of work the worker re-reads the stop
condition, and after observing it (wasTerminated, or a fatal error
already in the slot) it starts nothing: both the executing and the
writing loop return immediately with their state untouched. With
continue-on-error disabled, a failure is latched as the fatal error
without advancing the error counter (which therefore ends at zero in
both loops), the latching worker attempts nothing after the failing
statement, and in general every attempted statement but the last
succeeded. -/
theorem C4_stop_check_and_fatal_latch
    (execRes : StatementWithType → Option String)
    (writeErr : StatementWithOffset → Option String)
    (valid onErrorContinue : Bool) (obs : Nat → Bool) :
    (∀ s rest k fe, (obs k = true ∨ (fe : Option String).isSome = true) →
      executeStatementsForConn execRes onErrorContinue obs (s :: rest) k fe
        = { attempted := [], numErrors := 0, fatalErr := fe,
            errorTablesMetadata := [], progressIncrements := 0 }) ∧
    (∀ s rest k st, (obs k = true ∨ st.fatalErr.isSome = true) →
      writeStatements valid writeErr onErrorContinue obs (s :: rest) k st = st) ∧
    (∀ stmts k fe,
      (executeStatementsForConn execRes false obs stmts k fe).numErrors = 0) ∧
    (∀ stmts k st,
      (writeStatements valid writeErr false obs stmts k st).numErrors
        = st.numErrors) ∧
    (∀ s rest k e, obs k = false → execRes s = some e →
      executeStatementsForConn execRes false obs (s :: rest) k none
        = { attempted := [s], numErrors := 0, fatalErr := some e,
            errorTablesMetadata := [], progressIncrements := 1 }) ∧
    (∀ stmts k,
      ((executeStatementsForConn execRes false obs stmts k none).attempted.dropLast).all
        (fun x => (execRes x).isNone) = true) := by
  refine ⟨?_, ?_, ?_, ?_, ?_, ?_⟩
  · intro s rest k fe h
    have hc : (obs k || fe.isSome) = true := by
      rcases h with h | h
      · simp [h]
      · simp [h]
    simp [executeStatementsForConn, hc]
  · intro s rest k st h
    have hc : (obs k || st.fatalErr.isSome) = true := by
      rcases h with h | h
      · simp [h]
      · simp [h]
    simp [writeStatements, hc]
  · intro stmts k fe
    exact executeStatementsForConn_noContinue_numErrors execRes obs stmts k fe
  · intro stmts k st
    exact writeStatements_noContinue_numErrors valid writeErr obs stmts k st
  · intro s rest k e hobs he
    have hc : ¬ (obs k || (none : Option String).isSome) = true := by
      simp [hobs]
    have hstop := executeStatementsForConn_stop execRes false obs rest (k + 1)
      (some e) rfl
    simp [executeStatementsForConn, hobs, he, hstop]
  · intro stmts k
    exact executeStatementsForConn_noContinue_prefixSucceeds execRes obs stmts k

/-- Witness for C4 on concrete inputs: with the stop schedule raised
from the second check onward, a worker handed a two-statement queue
does nothing at a raised check; and with continuation disabled a
failure on the first of two statements is latched with a zero error
count and only that one statement attempted. -/
theorem C4_stop_check_and_fatal_latch_witness :
    executeStatementsForConn (fun _ => some "boom") false (fun k => k == 1)
      [⟨"s", "a", "CREATE TABLE a", "TABLE", ""⟩] 1 none
      = { attempted := [], numErrors := 0, fatalErr := none,
          errorTablesMetadata := [], progressIncrements := 0 } ∧
    executeStatementsForConn (fun _ => some "boom") false (fun k => k == 1)
      [⟨"s", "a", "CREATE TABLE a", "TABLE", ""⟩,
       ⟨"s", "b", "CREATE TABLE b", "TABLE", ""⟩] 0 none
      = { attempted := [⟨"s", "a", "CREATE TABLE a", "TABLE", ""⟩],
          numErrors := 0, fatalErr := some "boom",
          errorTablesMetadata := [], progressIncrements := 1 } := by
  have h := C4_stop_check_and_fatal_latch (fun _ => some "boom")
    (fun _ => none) true false (fun k => k == 1)
  exact ⟨h.1 ⟨"s", "a", "CREATE TABLE a", "TABLE", ""⟩ [] 1 none
      (Or.inl (by decide)),
    h.2.2.2.2.1 ⟨"s", "a", "CREATE TABLE a", "TABLE", ""⟩
      [⟨"s", "b", "CREATE TABLE b", "TABLE", ""⟩] 0 "boom" (by decide) rfl⟩

/-- Counterexample to C5 as stated: with continuation disabled and a
single statement whose execution fails, that failure is recorded as the
fatal error and is not a recovered (counted) failure, so the claim says
Increment is never called for it; but the worker makes one Increment
call, because parallel.go line 46 runs progressBar.Increment()
unconditionally after the error handling of every dispatched statement. -/
theorem C5_counterexample_increment_on_fatal :
    (executeStatementsForConn (fun _ => some "boom") false (fun _ => false)
      [⟨"s", "t", "CREATE TABLE t", "TABLE", ""⟩] 0 none).progressIncrements = 1 ∧
    (executeStatementsForConn (fun _ => some "boom") false (fun _ => false)
      [⟨"s", "t", "CREATE TABLE t", "TABLE", ""⟩] 0 none).numErrors = 0 ∧
    (executeStatementsForConn (fun _ => some "boom") false (fun _ => false)
      [⟨"s", "t", "CREATE TABLE t", "TABLE", ""⟩] 0 none).fatalErr
      = some "boom" := by
  decide

/-- C5 amended: the progress indicator is incremented exactly once per
statement attempt, whether the attempt succeeds, fails as a recovered
error, or fails as the latched fatal error; statements the worker never
dispatched get no increment. Stated as: the number of Increment calls
equals the number of attempted statements, for every oracle, policy,
stop schedule, and entry state. -/
theorem C5_increment_once_per_attempt
    (execRes : StatementWithType → Option String) (onErrorContinue : Bool)
    (obs : Nat → Bool) (stmts : List StatementWithType) : ∀ k fe,
    (executeStatementsForConn execRes onErrorContinue obs stmts k fe).progressIncrements
      = (executeStatementsForConn execRes onErrorContinue obs stmts k fe).attempted.length := by
  induction stmts with
  | nil => intro k fe; rfl
  | cons s rest ih =>
    intro k fe
    by_cases hc : (obs k || fe.isSome) = true
    · simp [executeStatementsForConn, hc]
    · cases he : execRes s with
      | none => simp [executeStatementsForConn, hc, he, ih]
      | some e =>
        cases onErrorContinue with
        | true => simp [executeStatementsForConn, hc, he, ih]
        | false => simp [executeStatementsForConn, hc, he, ih]

/-- With the invalid handle left by a failed OpenFile, every write
fails, and under continue-on-error each failure is counted: the error
counter advances by exactly the queue length. -/
theorem writeStatements_invalid_counts (writeErr : StatementWithOffset → Option String)
    (stmts : List StatementWithOffset) : ∀ k st, st.fatalErr = none →
    (writeStatements false writeErr true (fun _ => false) stmts k st).numErrors
      = st.numErrors + stmts.length ∧
    (writeStatements false writeErr true (fun _ => false) stmts k st).fatalErr
      = none := by
  induction stmts with
  | nil => intro k st h; exact ⟨rfl, h⟩
  | cons s rest ih =>
    intro k st h
    have hc : ¬ (((fun _ => false) k : Bool) || st.fatalErr.isSome) = true := by
      simp [h]
    have he : writeAtResult false writeErr s = some "invalid argument" := rfl
    obtain ⟨h1, h2⟩ := ih (k + 1)
      { st with numErrors := st.numErrors + 1,
                errorTablesMetadata := errorKey s.schema s.name :: st.errorTablesMetadata,
                progressIncrements := st.progressIncrements + 1 } h
    simp only [writeStatements, if_neg hc, he]
    rw [if_pos trivial]
    refine ⟨?_, h2⟩
    rw [h1]
    simp only [List.length_cons]
    omega

/-- C8: when OpenFile fails in WriteStatements, with continue-on-error
disabled the run terminates fatally at the open, before the writer loop
touches anything (the returned state is the initial state); with
continue-on-error enabled the open failure is counted once, the loop
still runs against the invalid handle, every positional write fails and
is counted, and the invocation returns 1 plus the number of statements. -/
theorem C8_open_failure_policy (e : String)
    (writeErr : StatementWithOffset → Option String)
    (stmts : List StatementWithOffset) (init : Nat → Option Char) :
    WriteStatementsSerial (some e) writeErr false (fun _ => false) stmts init
      = (WriteOutcome.fatalOpen e, initWriteState init) ∧
    (WriteStatementsSerial (some e) writeErr true (fun _ => false) stmts init).1
      = WriteOutcome.returned (1 + stmts.length) := by
  constructor
  · rfl
  · obtain ⟨h1, h2⟩ := writeStatements_invalid_counts writeErr stmts 0
      { initWriteState init with numErrors := 1 } rfl
    simp only [WriteStatementsSerial, if_pos rfl]
    rw [h2, h1]
    simp [initWriteState]

/-- C10: the failed-objects key is schema ++ dot ++ name with no
quoting, so the two distinct (schema, name) pairs (a.b, c) and
(a, b.c) collide on the key a.b.c; when statements for both fail under
continue-on-error, the failed-objects set ends with a single membership
entry for the two distinct objects. -/
theorem C10_failed_objects_key_conflation :
    errorKey "a.b" "c" = errorKey "a" "b.c" ∧
    (("a.b", "c") ≠ (("a", "b.c") : String × String)) ∧
    (executeStatementsForConn (fun _ => some "boom") true (fun _ => false)
      [⟨"a.b", "c", "CREATE TABLE x", "TABLE", ""⟩,
       ⟨"a", "b.c", "CREATE TABLE y", "TABLE", ""⟩] 0 none).numErrors = 2 ∧
    (executeStatementsForConn (fun _ => some "boom") true (fun _ => false)
      [⟨"a.b", "c", "CREATE TABLE x", "TABLE", ""⟩,
       ⟨"a", "b.c", "CREATE TABLE y", "TABLE", ""⟩] 0 none).errorTablesMetadata.toFinset
      = {"a.b.c"} := by
  refine ⟨rfl, by decide, rfl, ?_⟩
  decide

/-- The upstream precondition on offsets: the byte regions of two
records do not overlap. -/
def regionDisjoint (a b : StatementWithOffset) : Bool :=
  decide (a.offset + a.statement.data.length ≤ b.offset ∨
    b.offset + b.statement.data.length ≤ a.offset)

/-- A position written by none of the statements is unchanged by the
sequence of positional writes. -/
theorem foldl_writeAt_untouched (stmts : List StatementWithOffset) :
    ∀ (c : Nat → Option Char) (i : Nat),
      (∀ s ∈ stmts, ¬ (s.offset ≤ i ∧ i < s.offset + s.statement.data.length)) →
      (stmts.foldl (fun c2 t => writeAtFile c2 t.offset t.statement.data) c) i
        = c i := by
  induction stmts with
  | nil => intro c i _; rfl
  | cons x rest ih =>
    intro c i h
    have hx := h x (by simp)
    have hrest : ∀ s ∈ rest,
        ¬ (s.offset ≤ i ∧ i < s.offset + s.statement.data.length) :=
      fun s hs => h s (by simp [hs])
    rw [List.foldl_cons, ih _ i hrest]
    simp only [writeAtFile]
    rw [if_neg hx]

/-- With pairwise disjoint regions, the sequence of positional writes
leaves the bytes of each statement at its own offset: later writes do
not corrupt it and earlier content under it is fully replaced. -/
theorem foldl_writeAt_fidelity (stmts : List StatementWithOffset) :
    ∀ (c : Nat → Option Char),
      List.Pairwise (fun a b => regionDisjoint a b = true) stmts →
      ∀ s ∈ stmts, ∀ j, j < s.statement.data.length →
        (stmts.foldl (fun c2 t => writeAtFile c2 t.offset t.statement.data) c)
          (s.offset + j) = s.statement.data[j]? := by
  induction stmts with
  | nil => intro c _ s hs; cases hs
  | cons x rest ih =>
    intro c hpw s hs j hj
    rw [List.pairwise_cons] at hpw
    obtain ⟨hx, hrest⟩ := hpw
    rw [List.foldl_cons]
    rcases List.mem_cons.mp hs with rfl | hmem
    · have huntouched : ∀ t ∈ rest,
          ¬ (t.offset ≤ s.offset + j ∧
            s.offset + j < t.offset + t.statement.data.length) := by
        intro t ht hin
        have hd : s.offset + s.statement.data.length ≤ t.offset ∨
            t.offset + t.statement.data.length ≤ s.offset :=
          of_decide_eq_true (hx t ht)
        rcases hd with hd | hd
        · omega
        · omega
      rw [foldl_writeAt_untouched rest _ _ huntouched]
      simp only [writeAtFile]
      rw [if_pos ⟨Nat.le_add_right _ _, by omega⟩]
      have hj2 : s.offset + j - s.offset = j := by omega
      rw [hj2]
    · exact ih _ hrest s hmem j hj

/-- When the handle is valid and every write succeeds, the writer loop
applies exactly the positional writes of its queue, in queue order, to
the entry content, and latches no fatal error. -/
theorem writeStatements_success_content (onErrorContinue : Bool)
    (stmts : List StatementWithOffset) : ∀ k st, st.fatalErr = none →
    (writeStatements true (fun _ => none) onErrorContinue (fun _ => false)
        stmts k st).content
      = stmts.foldl (fun c t => writeAtFile c t.offset t.statement.data)
          st.content ∧
    (writeStatements true (fun _ => none) onErrorContinue (fun _ => false)
        stmts k st).fatalErr = none := by
  induction stmts with
  | nil => intro k st h; exact ⟨rfl, h⟩
  | cons s rest ih =>
    intro k st h
    have hc : ¬ (((fun _ => false) k : Bool) || st.fatalErr.isSome) = true := by
      simp [h]
    have he : writeAtResult true (fun _ => none) s = none := rfl
    obtain ⟨h1, h2⟩ := ih (k + 1)
      { st with content := writeAtFile st.content s.offset s.statement.data,
                progressIncrements := st.progressIncrements + 1 } h
    simp only [writeStatements, if_neg hc, he]
    exact ⟨h1, h2⟩

/-- C9: for statements with pairwise non-overlapping byte regions, all
of whose writes succeed, the file content after the writer loop equals
each statement's text throughout that statement's region, and every
position outside all regions is untouched, so no write alters bytes in
another statement's region. -/
theorem C9_offset_write_fidelity (onErrorContinue : Bool)
    (stmts : List StatementWithOffset) (init : Nat → Option Char)
    (hdisj : List.Pairwise (fun a b => regionDisjoint a b = true) stmts) :
    (∀ s ∈ stmts, ∀ j, j < s.statement.data.length →
      (writeStatements true (fun _ => none) onErrorContinue (fun _ => false)
        stmts 0 (initWriteState init)).content (s.offset + j)
        = s.statement.data[j]?) ∧
    (∀ i, (∀ s ∈ stmts,
        ¬ (s.offset ≤ i ∧ i < s.offset + s.statement.data.length)) →
      (writeStatements true (fun _ => none) onErrorContinue (fun _ => false)
        stmts 0 (initWriteState init)).content i = init i) := by
  obtain ⟨hcontent, _⟩ := writeStatements_success_content onErrorContinue stmts 0
    (initWriteState init) rfl
  rw [hcontent]
  constructor
  · intro s hs j hj
    exact foldl_writeAt_fidelity stmts init hdisj s hs j hj
  · intro i hout
    exact foldl_writeAt_untouched stmts init i hout

/-- Witness for C9 on the spec example offsets 0, 50, 120 with
fixed-length text blocks: reading the content back at each offset
yields exactly the original text and a position in no region stays
untouched. -/
theorem C9_offset_write_fidelity_witness :
    (writeStatements true (fun _ => none) true (fun _ => false)
      [⟨"s", "a", "AB", 0⟩, ⟨"s", "b", "CD", 50⟩, ⟨"s", "c", "EF", 120⟩] 0
      (initWriteState (fun _ => none))).content 0 = some 'A' ∧
    (writeStatements true (fun _ => none) true (fun _ => false)
      [⟨"s", "a", "AB", 0⟩, ⟨"s", "b", "CD", 50⟩, ⟨"s", "c", "EF", 120⟩] 0
      (initWriteState (fun _ => none))).content 51 = some 'D' ∧
    (writeStatements true (fun _ => none) true (fun _ => false)
      [⟨"s", "a", "AB", 0⟩, ⟨"s", "b", "CD", 50⟩, ⟨"s", "c", "EF", 120⟩] 0
      (initWriteState (fun _ => none))).content 120 = some 'E' ∧
    (writeStatements true (fun _ => none) true (fun _ => false)
      [⟨"s", "a", "AB", 0⟩, ⟨"s", "b", "CD", 50⟩, ⟨"s", "c", "EF", 120⟩] 0
      (initWriteState (fun _ => none))).content 10 = none := by
  have h := C9_offset_write_fidelity true
    [⟨"s", "a", "AB", 0⟩, ⟨"s", "b", "CD", 50⟩, ⟨"s", "c", "EF", 120⟩]
    (fun _ => none) (by decide)
  refine ⟨?_, ?_, ?_, ?_⟩
  · exact h.1 ⟨"s", "a", "AB", 0⟩ (by decide) 0 (by decide)
  · exact h.1 ⟨"s", "b", "CD", 50⟩ (by decide) 1 (by decide)
  · exact h.1 ⟨"s", "c", "EF", 120⟩ (by decide) 0 (by decide)
  · exact h.2 10 (by decide)

end GpRestore
